import Mathlib

/-!
Shallow embedding of `src/main.rs` from the Modular-Multiplicative-Inverse
repository: a recursive `gcd`, a coprimality test `is_relatively_prime`,
and `modular_multiplicative_inverse`, which runs the extended Euclidean
iteration.  Rust's `u64` registers are modelled as `Nat`, the signed `i64`
accumulators as `Int` (the spec's numeric-semantics section assumes the
accumulators are wide enough for the values that arise), and the `panic!`
path as `Except.error` carrying the panic message.
-/

namespace MMI

/-- Embeds `fn gcd(a: u64, b: u64) -> u64` from src/main.rs:
`if b == 0 { a } else { gcd(b, a % b) }`. -/
def gcd (a b : Nat) : Nat :=
  if _h : b = 0 then a
  else gcd b (a % b)
termination_by b
decreasing_by exact Nat.mod_lt _ (Nat.pos_of_ne_zero _h)

/-- Embeds `fn is_relatively_prime(a: u64, b: u64) -> bool`: `gcd(a, b) == 1`. -/
def is_relatively_prime (a b : Nat) : Bool :=
  gcd a b == 1

/-- The `while B > 0` loop of `modular_multiplicative_inverse`, as the
tail-recursive function it computes on the state `(A, B, x, y)`:
`q = A / B`, `r = A % B`, `t = x - y * (q as i64)`, then the shift
`A ← B, B ← r, x ← y, y ← t`.  Returns the final `(A, x)`
(the registers read after the loop). -/
def egcdLoop (A B : Nat) (x y : Int) : Nat × Int :=
  if _h : B = 0 then (A, x)
  else egcdLoop B (A % B) y (x - y * ((A / B : Nat) : Int))
termination_by B
decreasing_by exact Nat.mod_lt _ (Nat.pos_of_ne_zero _h)

/-- The panic message of src/main.rs line 88:
`"{} and {} aren't relatively prime"`. -/
def panicMessage (a b : Nat) : String :=
  toString a ++ " and " ++ toString b ++ " aren't relatively prime"

/-- Embeds `fn modular_multiplicative_inverse(a: u64, b: u64) -> u64`.
The `panic!` on non-coprime inputs is modelled as `Except.error` with the
panic's message; a normal return as `Except.ok`.  After the loop, `x` is
normalized by adding `b` when negative, and returned as a `u64` (`toNat`). -/
def modular_multiplicative_inverse (a b : Nat) : Except String Nat :=
  if b = 1 then .ok 0
  else if !(is_relatively_prime a b) then .error (panicMessage a b)
  else
    let x := (egcdLoop b a 0 1).2
    let x := if x < 0 then (b : Int) + x else x
    .ok x.toNat

/-- The five mutable registers of the extended-Euclidean loop body
(`t` is recomputed each pass, so the loop state is `A`, `B`, `x`, `y`). -/
structure EState where
  A : Nat
  B : Nat
  x : Int
  y : Int
deriving DecidableEq

/-- One execution of the loop body of `modular_multiplicative_inverse`
(the identity when the guard `B > 0` fails). -/
def estep (s : EState) : EState :=
  if s.B = 0 then s
  else ⟨s.B, s.A % s.B, s.y, s.x - s.y * ((s.A / s.B : Nat) : Int)⟩

/-- The loop state of `modular_multiplicative_inverse a b` after `n`
iterations, from the initial registers `A = b, B = a, x = 0, y = 1`. -/
def stateAt (a b : Nat) (n : Nat) : EState :=
  estep^[n] ⟨b, a, 0, 1⟩

/-- The operand `a` hardcoded in `fn main` (src/main.rs line 57). -/
def main_a : Nat := 3

/-- The operand `b` hardcoded in `fn main` (src/main.rs line 58). -/
def main_b : Nat := 5

/-- Models `fn main`: the single line `println!` writes to standard output
(an `Except.error` would mean the inverse call panicked first). -/
def main_output : Except String String :=
  (modular_multiplicative_inverse main_a main_b).map fun r =>
    "The modular multiplicative inverse of " ++ toString main_a ++ " Mod "
      ++ toString main_b ++ " is " ++ toString r

/-! ### Unfolding lemmas -/

theorem gcd_zero (a : Nat) : gcd a 0 = a := by
  rw [gcd]
  simp

theorem gcd_rec' (a b : Nat) (h : b ≠ 0) : gcd a b = gcd b (a % b) := by
  rw [gcd]
  simp [h]

theorem egcdLoop_zero (A : Nat) (x y : Int) : egcdLoop A 0 x y = (A, x) := by
  rw [egcdLoop]
  simp

theorem egcdLoop_rec (A B : Nat) (x y : Int) (h : B ≠ 0) :
    egcdLoop A B x y = egcdLoop B (A % B) y (x - y * ((A / B : Nat) : Int)) := by
  rw [egcdLoop]
  simp [h]

/-- The program's `gcd` agrees with Mathlib's `Nat.gcd`. -/
theorem gcd_eq_natGcd (a b : Nat) : gcd a b = Nat.gcd a b := by
  induction b using Nat.strong_induction_on generalizing a with
  | _ b ih =>
    by_cases hb : b = 0
    · subst hb
      rw [gcd_zero, Nat.gcd_zero_right]
    · rw [gcd_rec' a b hb, ih (a % b) (Nat.mod_lt _ (Nat.pos_of_ne_zero hb)) b]
      rw [Nat.gcd_comm a b, Nat.gcd_rec b a, Nat.gcd_comm (a % b) b]

/-! ### The loop invariant of the extended Euclidean iteration

With opposite-signed accumulators `x, y`, the update `t = x - y * q` grows
the magnitude additively, and `A * |y| + B * |x| = b` is preserved. -/

theorem natAbs_shift (x y : Int) (q : Nat) (h : x * y ≤ 0) :
    (x - y * (q : Int)).natAbs = x.natAbs + y.natAbs * q ∧
      y * (x - y * (q : Int)) ≤ 0 := by
  rcases lt_trichotomy y 0 with hy | hy | hy
  · have hx : 0 ≤ x := by nlinarith
    have hk : y * (q : Int) = -(((y.natAbs * q : Nat) : Int)) := by
      have h1 : |y| = -y := abs_of_neg hy
      push_cast
      rw [h1]
      ring
    rw [hk]
    generalize y.natAbs * q = k
    constructor
    · omega
    · have hnn : (0 : Int) ≤ x - -(k : Int) := by
        have : (0 : Int) ≤ (k : Int) := Int.natCast_nonneg k
        linarith
      nlinarith
  · subst hy
    simp
  · have hx : x ≤ 0 := by nlinarith
    have hk : y * (q : Int) = ((y.natAbs * q : Nat) : Int) := by
      have h1 : |y| = y := abs_of_pos hy
      push_cast
      rw [h1]
    rw [hk]
    generalize y.natAbs * q = k
    constructor
    · omega
    · have hnp : x - (k : Int) ≤ 0 := by
        have : (0 : Int) ≤ (k : Int) := Int.natCast_nonneg k
        linarith
      nlinarith

/-- The fresh accumulator `t = x - y * q` satisfies the same congruence
that `x` and `y` do, now relative to the fresh remainder. -/
theorem t_cong (a b A B : Nat) (x y : Int)
    (hx : (a : Int) * x ≡ (A : Int) [ZMOD (b : Int)])
    (hy : (a : Int) * y ≡ (B : Int) [ZMOD (b : Int)]) :
    (a : Int) * (x - y * ((A / B : Nat) : Int)) ≡ ((A % B : Nat) : Int) [ZMOD (b : Int)] := by
  have hdm : B * (A / B) + A % B = A := Nat.div_add_mod A B
  have hcast : (B : Int) * ((A / B : Nat) : Int) + ((A % B : Nat) : Int) = (A : Int) := by
    exact_mod_cast hdm
  have e1 : (a : Int) * (x - y * ((A / B : Nat) : Int))
      = a * x - a * y * ((A / B : Nat) : Int) := by ring
  have e2 : (A : Int) - (B : Int) * ((A / B : Nat) : Int) = ((A % B : Nat) : Int) := by
    linarith
  rw [e1, ← e2]
  exact hx.sub (hy.mul_right _)

/-- Main invariant of `egcdLoop`, by strong induction on the divisor
register: starting from a state whose accumulators are congruent
(mod `b`) to the dividend/divisor and satisfy the magnitude invariant
`A * |y| + B * |x| = b` with opposite signs, the loop returns the GCD of
its two registers together with an accumulator that is congruent to that
GCD and bounded by `b` in magnitude. -/
theorem egcdLoop_spec (a b : Nat) (B : Nat) :
    ∀ (A : Nat) (x y : Int), 1 ≤ A →
    (a : Int) * x ≡ (A : Int) [ZMOD (b : Int)] →
    (a : Int) * y ≡ (B : Int) [ZMOD (b : Int)] →
    x * y ≤ 0 →
    A * y.natAbs + B * x.natAbs = b →
    x.natAbs ≤ b →
    (egcdLoop A B x y).1 = Nat.gcd B A ∧
    ((a : Int) * (egcdLoop A B x y).2 ≡ ((egcdLoop A B x y).1 : Int) [ZMOD (b : Int)]) ∧
    (egcdLoop A B x y).2.natAbs ≤ b := by
  induction B using Nat.strong_induction_on with
  | _ B ih =>
    intro A x y hA hx hy hsign hd hxb
    by_cases hB : B = 0
    · subst hB
      rw [egcdLoop_zero]
      exact ⟨(Nat.gcd_zero_left A).symm, hx, hxb⟩
    · have hBpos : 0 < B := Nat.pos_of_ne_zero hB
      rw [egcdLoop_rec A B x y hB]
      have hdm : B * (A / B) + A % B = A := Nat.div_add_mod A B
      have habs := natAbs_shift x y (A / B) hsign
      have h3 : (a : Int) * (x - y * ((A / B : Nat) : Int))
          ≡ ((A % B : Nat) : Int) [ZMOD (b : Int)] := t_cong a b A B x y hx hy
      have h5 : B * (x - y * ((A / B : Nat) : Int)).natAbs + (A % B) * y.natAbs = b := by
        calc B * (x - y * ((A / B : Nat) : Int)).natAbs + (A % B) * y.natAbs
            = B * (x.natAbs + y.natAbs * (A / B)) + (A % B) * y.natAbs := by rw [habs.1]
          _ = B * x.natAbs + (B * (A / B) + A % B) * y.natAbs := by ring
          _ = B * x.natAbs + A * y.natAbs := by rw [hdm]
          _ = b := by rw [← hd]; ring
      have h6 : y.natAbs ≤ b := by
        have hAy : A * y.natAbs ≤ b := Nat.le.intro hd
        calc y.natAbs = 1 * y.natAbs := (one_mul _).symm
          _ ≤ A * y.natAbs := Nat.mul_le_mul_right _ hA
          _ ≤ b := hAy
      have hres := ih (A % B) (Nat.mod_lt _ hBpos) B y
        (x - y * ((A / B : Nat) : Int)) hBpos hy h3 habs.2 h5 h6
      have hg : Nat.gcd (A % B) B = Nat.gcd B A := (Nat.gcd_rec B A).symm
      exact ⟨hres.1.trans hg, hres.2.1, hres.2.2⟩

/-! ### Small-step view of the loop: invariants at every iteration boundary -/

/-- One loop pass preserves the congruence invariants and the GCD of the
two registers. -/
theorem estep_inv (a b : Nat) (s : EState)
    (h1 : (a : Int) * s.x ≡ (s.A : Int) [ZMOD (b : Int)])
    (h2 : (a : Int) * s.y ≡ (s.B : Int) [ZMOD (b : Int)])
    (h3 : Nat.gcd s.B s.A = Nat.gcd a b) :
    ((a : Int) * (estep s).x ≡ ((estep s).A : Int) [ZMOD (b : Int)]) ∧
    ((a : Int) * (estep s).y ≡ ((estep s).B : Int) [ZMOD (b : Int)]) ∧
    Nat.gcd (estep s).B (estep s).A = Nat.gcd a b := by
  by_cases hB : s.B = 0
  · simp only [estep, if_pos hB]
    exact ⟨h1, h2, h3⟩
  · simp only [estep, if_neg hB]
    exact ⟨h2, t_cong a b s.A s.B s.x s.y h1 h2, (Nat.gcd_rec s.B s.A).symm.trans h3⟩

/-- The invariants hold at every iteration boundary of the loop run by
`modular_multiplicative_inverse a b`. -/
theorem stateAt_inv (a b n : Nat) :
    ((a : Int) * (stateAt a b n).x ≡ ((stateAt a b n).A : Int) [ZMOD (b : Int)]) ∧
    ((a : Int) * (stateAt a b n).y ≡ ((stateAt a b n).B : Int) [ZMOD (b : Int)]) ∧
    Nat.gcd (stateAt a b n).B (stateAt a b n).A = Nat.gcd a b := by
  induction n with
  | zero =>
    refine ⟨?_, ?_, rfl⟩
    · simp [stateAt, Int.ModEq]
    · simp [stateAt, Int.ModEq]
  | succ n ih =>
    have hstep : stateAt a b (n + 1) = estep (stateAt a b n) := by
      rw [stateAt, Function.iterate_succ_apply', ← stateAt]
    rw [hstep]
    exact estep_inv a b _ ih.1 ih.2.1 ih.2.2

/-- Once the divisor register is 0 the loop state is stable, and the
divisor strictly decreases otherwise, so `n` iterations suffice whenever
the divisor starts at most `n`. -/
theorem iterate_estep_zero : ∀ (n : Nat) (s : EState), s.B ≤ n → (estep^[n] s).B = 0 := by
  intro n
  induction n with
  | zero =>
    intro s h
    simpa using Nat.le_zero.mp h
  | succ n ih =>
    intro s h
    rw [Function.iterate_succ_apply]
    by_cases hB : s.B = 0
    · apply ih
      simp [estep, hB]
    · apply ih
      have hlt : (estep s).B < s.B := by
        simp only [estep, if_neg hB]
        exact Nat.mod_lt _ (Nat.pos_of_ne_zero hB)
      omega

/-- `egcdLoop` is the big-step result of iterating `estep` until the
divisor register reaches 0: both embed the same `while` loop. -/
theorem egcdLoop_eq_iterate : ∀ (n : Nat) (s : EState), s.B ≤ n →
    egcdLoop s.A s.B s.x s.y = ((estep^[n] s).A, (estep^[n] s).x) := by
  intro n
  induction n with
  | zero =>
    intro s h
    have h0 : s.B = 0 := Nat.le_zero.mp h
    rw [h0, egcdLoop_zero]
    simp [h0]
  | succ n ih =>
    intro s h
    rw [Function.iterate_succ_apply]
    by_cases hB : s.B = 0
    · have hs : estep s = s := by simp [estep, hB]
      rw [hs, ← ih s (by omega)]
    · have hlt : (estep s).B < s.B := by
        simp only [estep, if_neg hB]
        exact Nat.mod_lt _ (Nat.pos_of_ne_zero hB)
      have := ih (estep s) (by omega)
      rw [egcdLoop_rec _ _ _ _ hB]
      simpa [estep, hB] using this

/-! ### The claims -/

/-- Claim C1: for every coprime pair `(a, b)` with `b ≥ 1`,
`modular_multiplicative_inverse a b` returns a value `r` with
`(a * r) % b = 1 % b`, and `r` lies in `[0, b)`. -/
theorem modular_inverse_correct (a b : Nat) (hb : 1 ≤ b) (hcop : gcd a b = 1) :
    ∃ r, modular_multiplicative_inverse a b = .ok r ∧ (a * r) % b = 1 % b ∧ r < b := by
  by_cases hb1 : b = 1
  · subst hb1
    exact ⟨0, by simp [modular_multiplicative_inverse], by simp, by omega⟩
  · have hb2 : 2 ≤ b := by omega
    have hcopb : is_relatively_prime a b = true := by
      simp [is_relatively_prime, hcop]
    have hinit1 : (a : Int) * 0 ≡ ((b : Nat) : Int) [ZMOD (b : Int)] := by
      simp [Int.ModEq]
    have hinit2 : (a : Int) * 1 ≡ ((a : Nat) : Int) [ZMOD (b : Int)] := by
      simp [Int.ModEq]
    obtain ⟨hg, hcong, hbound⟩ :=
      egcdLoop_spec a b a b 0 1 hb hinit1 hinit2 (by simp) (by simp) (by simp)
    rw [gcd_eq_natGcd] at hcop
    rw [hcop] at hg
    rw [hg] at hcong
    push_cast at hcong
    set x := (egcdLoop b a 0 1).2 with hxdef
    set X : Int := if x < 0 then (b : Int) + x else x with hX
    have hXnn : 0 ≤ X := by
      rw [hX]
      split <;> omega
    have hXcong : (a : Int) * X ≡ 1 [ZMOD (b : Int)] := by
      rw [hX]
      split
      · have hb0 : (b : Int) ≡ 0 [ZMOD (b : Int)] := by simp [Int.ModEq]
        have h' := hb0.add_right x
        rw [zero_add] at h'
        exact (h'.mul_left _).trans hcong
      · exact hcong
    have hXlt : X < b := by
      rw [hX]
      split
      · omega
      · rename_i hnneg
        push_neg at hnneg
        rcases eq_or_lt_of_le (show x ≤ (b : Int) by omega) with heq | hlt
        · exfalso
          have hbad : (a : Int) * (b : Int) ≡ 1 [ZMOD (b : Int)] := heq ▸ hcong
          have h0 : (a : Int) * (b : Int) % (b : Int) = 0 := Int.mul_emod_left a b
          have h1 : (1 : Int) % (b : Int) = 1 := by
            rw [Int.emod_eq_of_lt (by omega) (by exact_mod_cast hb2)]
          unfold Int.ModEq at hbad
          rw [h0, h1] at hbad
          exact absurd hbad (by norm_num)
        · exact hlt
    refine ⟨X.toNat, ?_, ?_, by omega⟩
    · simp only [modular_multiplicative_inverse, if_neg hb1, hcopb, Bool.not_true,
        Bool.false_eq_true, if_false]
    · have hXeq : ((X.toNat : Nat) : Int) = X := Int.toNat_of_nonneg hXnn
      have hcast : ((a * X.toNat : Nat) : Int) % (b : Int) = ((1 : Nat) : Int) % (b : Int) := by
        push_cast
        rw [hXeq]
        exact hXcong
      exact_mod_cast hcast

/-- Witness for C1 at the coprime pair `(3, 5)`. -/
theorem modular_inverse_correct_witness :
    ∃ r, modular_multiplicative_inverse 3 5 = .ok r ∧ (3 * r) % 5 = 1 % 5 ∧ r < 5 :=
  modular_inverse_correct 3 5 (by norm_num) (by simp [gcd.eq_def])

/-- Claim C2 fails as literally stated: after one iteration on inputs
`a = 3, b = 5` the accumulators hold `x = 1, y = -1` while the dividend
register holds 3, and neither pairing of the accumulators with the
original operands gives `x * A_original + y * B_original = dividend`
(`1*5 + (-1)*3 = 2 ≠ 3` and `1*3 + (-1)*5 = -2 ≠ 3`). -/
theorem loop_invariant_counterexample :
    (stateAt 3 5 1).x * 5 + (stateAt 3 5 1).y * 3 ≠ ((stateAt 3 5 1).A : Int) ∧
    (stateAt 3 5 1).x * 3 + (stateAt 3 5 1).y * 5 ≠ ((stateAt 3 5 1).A : Int) := by
  decide

/-- Claim C2 (amended): at every iteration boundary the accumulators
satisfy Bézout's identity modulo the original modulus — `a * x` is
congruent to the current dividend and `a * y` to the current divisor
(mod `b`) — and the loop terminates exactly when the divisor register
reaches 0, at which point the dividend register equals `gcd a b`. -/
theorem loop_invariant_theorem (a b n : Nat) :
    ((a : Int) * (stateAt a b n).x ≡ ((stateAt a b n).A : Int) [ZMOD (b : Int)] ∧
     (a : Int) * (stateAt a b n).y ≡ ((stateAt a b n).B : Int) [ZMOD (b : Int)]) ∧
    ((stateAt a b n).B = 0 → (stateAt a b n).A = gcd a b) ∧
    (∃ m, (stateAt a b m).B = 0) := by
  obtain ⟨h1, h2, h3⟩ := stateAt_inv a b n
  refine ⟨⟨h1, h2⟩, ?_, ⟨a, iterate_estep_zero a ⟨b, a, 0, 1⟩ (le_refl a)⟩⟩
  intro hB0
  rw [gcd_eq_natGcd, ← h3, hB0, Nat.gcd_zero_left]

/-- Witness for C2 (amended) at `a = 3, b = 5`, `n = 4` iterations, where
the loop has terminated with dividend `1 = gcd 3 5`. -/
theorem loop_invariant_theorem_witness :
    ((3 : Int) * (stateAt 3 5 4).x ≡ ((stateAt 3 5 4).A : Int) [ZMOD (5 : Int)] ∧
     (3 : Int) * (stateAt 3 5 4).y ≡ ((stateAt 3 5 4).B : Int) [ZMOD (5 : Int)]) ∧
    (stateAt 3 5 4).A = gcd 3 5 ∧ (stateAt 3 5 4).B = 0 := by
  obtain ⟨hc, himp, _⟩ := loop_invariant_theorem 3 5 4
  have hB : (stateAt 3 5 4).B = 0 := by decide
  exact ⟨hc, himp hB, hB⟩

/-- Claim C3: for every `a` and every `b ≥ 2` with `gcd a b ≠ 1`,
`modular_multiplicative_inverse a b` panics with a message naming the two
inputs and never returns a value. -/
theorem noncoprime_panics (a b : Nat) (hb : 2 ≤ b) (h : gcd a b ≠ 1) :
    modular_multiplicative_inverse a b = .error (panicMessage a b) := by
  have hb1 : b ≠ 1 := by omega
  have hcop : is_relatively_prime a b = false := by
    simp [is_relatively_prime, h]
  simp [modular_multiplicative_inverse, hb1, hcop]

/-- Witness for C3: `modular_multiplicative_inverse 4 8` fails rather than
returning, with the panic message naming 4 and 8. -/
theorem noncoprime_panics_witness :
    modular_multiplicative_inverse 4 8 = .error (panicMessage 4 8) ∧
    panicMessage 4 8 = "4 and 8 aren't relatively prime" := by
  constructor
  · exact noncoprime_panics 4 8 (by norm_num) (by simp [gcd.eq_def])
  · rfl

/-- Claim C4: for every `a ≥ 0`, `modular_multiplicative_inverse a 1`
returns 0 (the `b = 1` early return precedes both the coprimality check
and the iteration). -/
theorem inverse_mod_one (a : Nat) : modular_multiplicative_inverse a 1 = .ok 0 := by
  simp [modular_multiplicative_inverse]

/-- Claim C5: with the unchecked modulus `b = 0`, the function panics for
every `a ≠ 1` (since `gcd a 0 = a`), but `a = 1` slips through the
coprimality gate and returns 1 without any error. -/
theorem inverse_mod_zero (a : Nat) :
    (a ≠ 1 → modular_multiplicative_inverse a 0 = .error (panicMessage a 0)) ∧
    modular_multiplicative_inverse 1 0 = .ok 1 := by
  constructor
  · intro ha
    have h0 : is_relatively_prime a 0 = false := by
      simp [is_relatively_prime, gcd_zero, ha]
    simp [modular_multiplicative_inverse, h0]
  · simp [modular_multiplicative_inverse, is_relatively_prime, gcd.eq_def, egcdLoop.eq_def]

/-- Witness for C5 at `a = 4` (panics) and `a = 1` (returns 1). -/
theorem inverse_mod_zero_witness :
    modular_multiplicative_inverse 4 0 = .error (panicMessage 4 0) ∧
    modular_multiplicative_inverse 1 0 = .ok 1 :=
  ⟨(inverse_mod_zero 4).1 (by decide), (inverse_mod_zero 1).2⟩

/-- Claim C6: the worked scenarios hold — `inverse(3, 5) = 2`,
`inverse(7, 26) = 15` — and with the fixed inputs `A = 3, B = 5` the
program prints the single line
`The modular multiplicative inverse of 3 Mod 5 is 2`. -/
theorem worked_scenarios :
    modular_multiplicative_inverse 3 5 = .ok 2 ∧
    modular_multiplicative_inverse 7 26 = .ok 15 ∧
    main_output = .ok "The modular multiplicative inverse of 3 Mod 5 is 2" := by
  have h35 : modular_multiplicative_inverse 3 5 = .ok 2 := by
    simp [modular_multiplicative_inverse, is_relatively_prime, gcd.eq_def, egcdLoop.eq_def]
  refine ⟨h35, ?_, ?_⟩
  · simp [modular_multiplicative_inverse, is_relatively_prime, gcd.eq_def, egcdLoop.eq_def]
  · rw [main_output, main_a, main_b, h35]
    rfl

/-- Claim C7: `gcd a 0 = a` (including `gcd 0 0 = 0`) and `gcd 0 b = b`
for all non-negative inputs. -/
theorem gcd_zero_identities (a b : Nat) : gcd a 0 = a ∧ gcd 0 b = b := by
  refine ⟨gcd_zero a, ?_⟩
  by_cases hb : b = 0
  · subst hb
    exact gcd_zero 0
  · rw [gcd_rec' 0 b hb, Nat.zero_mod, gcd_zero]

/-- Claim C8: `is_relatively_prime a b` returns true iff `gcd a b = 1`;
in particular it is true at `(3, 5)` and false at `(4, 8)`, and it always
returns a boolean (it is a total function into `Bool`). -/
theorem coprimality_iff :
    (∀ a b : Nat, (is_relatively_prime a b = true ↔ gcd a b = 1)) ∧
    is_relatively_prime 3 5 = true ∧ is_relatively_prime 4 8 = false := by
  refine ⟨fun a b => ?_, ?_, ?_⟩
  · simp [is_relatively_prime]
  · simp [is_relatively_prime, gcd.eq_def]
  · simp [is_relatively_prime, gcd.eq_def]

/-- Claim C9: each recursive call of `gcd` strictly decreases the second
argument, and each pass of the extended-Euclidean loop strictly decreases
the divisor register, which therefore reaches 0 for every input. -/
theorem termination_measures :
    (∀ a b : Nat, b ≠ 0 → gcd a b = gcd b (a % b) ∧ a % b < b) ∧
    (∀ s : EState, 0 < s.B → (estep s).B < s.B) ∧
    (∀ a b : Nat, ∃ n, (stateAt a b n).B = 0) := by
  refine ⟨fun a b hb => ⟨gcd_rec' a b hb, Nat.mod_lt _ (Nat.pos_of_ne_zero hb)⟩,
    fun s hs => ?_, fun a b => ⟨a, iterate_estep_zero a ⟨b, a, 0, 1⟩ (le_refl a)⟩⟩
  have hB : s.B ≠ 0 := Nat.pos_iff_ne_zero.mp hs
  simp only [estep, if_neg hB]
  exact Nat.mod_lt _ hs

/-- Witness for C9 at `gcd 12 8` and the loop of `inverse(3, 5)`. -/
theorem termination_measures_witness :
    (gcd 12 8 = gcd 8 (12 % 8) ∧ 12 % 8 < 8) ∧
    (estep ⟨5, 3, 0, 1⟩).B < 3 ∧
    (∃ n, (stateAt 3 5 n).B = 0) :=
  ⟨termination_measures.1 12 8 (by decide),
   termination_measures.2.1 ⟨5, 3, 0, 1⟩ (by decide),
   termination_measures.2.2 3 5⟩

/-- Claim C10: `modular_multiplicative_inverse` is deterministic — equal
inputs give equal outputs; it is embedded as a pure function of its two
arguments, with no other state. -/
theorem inverse_deterministic (a b c d : Nat) (hac : a = c) (hbd : b = d) :
    modular_multiplicative_inverse a b = modular_multiplicative_inverse c d := by
  rw [hac, hbd]

/-- Witness for C10 at `(3, 5)`. -/
theorem inverse_deterministic_witness :
    modular_multiplicative_inverse 3 5 = modular_multiplicative_inverse 3 5 :=
  inverse_deterministic 3 5 3 5 rfl rfl

end MMI
